import Mathlib

/-!
Verification of the content-addressed upload/retrieve pipeline of the
mcp-storage-server repository.  JS strings are modelled as `List Char`
(sequences of code points), byte arrays as `List Nat` with values `< 256`,
and fallible operations as `Except`/`Option`.  External collaborators
(the multiformats CID parser, the storage network's `uploadDirectory`,
the HTTP fetch) are parameters of the functions that call them.
-/

set_option maxHeartbeats 1000000

/-! ## Base64 codec (src/core/storage/utils.ts)

The repository uses two base64 codecs:
* Node's `Buffer`: `Buffer.from(bytes).toString('base64')` produces standard
  RFC 4648 base64 with `=` padding; `Buffer.from(str, 'base64')` is Node's
  forgiving decoder (non-alphabet characters ignored, data ends at `=`).
* the multiformats `base64` multibase: `'m'`-prefixed, unpadded RFC 4648
  symbols; its decoder strips trailing `=` and rejects any other
  non-alphabet character as well as nonzero leftover bits.
-/

/-- The RFC 4648 base64 alphabet shared by both codecs. -/
def b64Alphabet : List Char :=
  "ABCDEFGHIJKLMNOPQRSTUVWXYZabcdefghijklmnopqrstuvwxyz0123456789+/".data

/-- The symbol for a 6-bit group.  Both encoders mask the group to 6 bits
(`mask & (buffer >> bits)` in the multiformats encoder). -/
def b64Sym (v : Nat) : Char := b64Alphabet.getD (v % 64) 'A'

/-- Index scan of the alphabet (the `codes` lookup table of the
multiformats decoder). -/
def b64IdxAux : List Char → Char → Nat → Option Nat
  | [], _, _ => none
  | a :: as, c, i => if a = c then some i else b64IdxAux as c (i + 1)

/-- The 6-bit value of a symbol, `none` for a character outside the
alphabet. -/
def b64Val (c : Char) : Option Nat := b64IdxAux b64Alphabet c 0

/-- The RFC 4648 symbol stream of a byte list, without padding: three bytes
become four symbols, a 1-byte remainder two symbols, a 2-byte remainder
three symbols. -/
def b64Chars : List Nat → List Char
  | [] => []
  | [b1] => [b64Sym (b1 / 4), b64Sym (b1 % 4 * 16)]
  | [b1, b2] => [b64Sym (b1 / 4), b64Sym (b1 % 4 * 16 + b2 / 16), b64Sym (b2 % 16 * 4)]
  | b1 :: b2 :: b3 :: rest =>
      b64Sym (b1 / 4) :: b64Sym (b1 % 4 * 16 + b2 / 16) ::
        b64Sym (b2 % 16 * 4 + b3 / 64) :: b64Sym (b3 % 64) :: b64Chars rest

/-- The `=` padding standard base64 appends to the symbol stream. -/
def b64Pad : List Nat → List Char
  | [] => []
  | [_] => ['=', '=']
  | [_, _] => ['=']
  | _ :: _ :: _ :: rest => b64Pad rest

/-- `Buffer.from(bytes).toString('base64')`: standard padded base64. -/
def nodeToBase64 (bs : List Nat) : List Char := b64Chars bs ++ b64Pad bs

/-- multiformats `base64.encode`: the `'m'` multibase marker followed by the
unpadded symbol stream. -/
def mfEncode (bs : List Nat) : List Char := 'm' :: b64Chars bs

/-- `buffer = (buffer << 6) | value` of the multiformats decode loop.  JS
`<<` wraps to 32 bits; the subsequent `|` with a 6-bit value is addition
because the shifted buffer has zero low bits. -/
def bufPush (buffer v : Nat) : Nat := buffer * 64 % 4294967296 + v

/-- The multiformats rfc4648 decode loop (6 bits per char): accumulate each
symbol, emit `0xff & (buffer >> bits)` whenever 8 bits are available, and
at the end reject a leftover of 6 or more bits or nonzero leftover bits. -/
def mfDecodeLoop : List Char → Nat → Nat → List Nat → Option (List Nat)
  | [], bits, buffer, acc =>
      if 6 ≤ bits then none
      else if buffer % 2 ^ bits ≠ 0 then none
      else some acc.reverse
  | c :: cs, bits, buffer, acc =>
      match b64Val c with
      | none => none
      | some v =>
          if 8 ≤ bits + 6 then
            mfDecodeLoop cs (bits + 6 - 8) (bufPush buffer v)
              (bufPush buffer v / 2 ^ (bits + 6 - 8) % 256 :: acc)
          else mfDecodeLoop cs (bits + 6) (bufPush buffer v) acc

/-- `while (string[end - 1] === '=') end--`: the decoder ignores the
trailing run of padding characters. -/
def stripTrailingEq (s : List Char) : List Char :=
  (s.reverse.dropWhile (· == '=')).reverse

/-- multiformats `baseDecode` for base64. -/
def mfBaseDecode (s : List Char) : Option (List Nat) :=
  mfDecodeLoop (stripTrailingEq s) 0 0 []

/-- multiformats `base64.decode`: requires the `'m'` multibase marker, then
base-decodes the remainder. -/
def mfDecode : List Char → Option (List Nat)
  | [] => none
  | c :: cs => if c = 'm' then mfBaseDecode cs else none

/-- Byte reconstruction for Node's forgiving `Buffer.from(str, 'base64')`:
each full 4-symbol group yields 3 bytes, a trailing group of 3 symbols 2
bytes, of 2 symbols 1 byte, of 1 symbol nothing. -/
def nodeQuads : List Nat → List Nat
  | v1 :: v2 :: v3 :: v4 :: rest =>
      (v1 * 4 + v2 / 16) :: (v2 % 16 * 16 + v3 / 4) :: (v3 % 4 * 64 + v4) :: nodeQuads rest
  | [v1, v2, v3] => [v1 * 4 + v2 / 16, v2 % 16 * 16 + v3 / 4]
  | [v1, v2] => [v1 * 4 + v2 / 16]
  | _ => []

/-- Node's `Buffer.from(str, 'base64')`: data ends at the first `=`,
non-alphabet characters are ignored, then symbols are grouped. -/
def nodeFromBase64 (s : List Char) : List Nat :=
  nodeQuads ((s.takeWhile (· ≠ '=')).filterMap b64Val)

/-- Scan for the first `";base64,"` occurrence of the lazy `.*?;base64,`
regex part: `.` does not match a line terminator, so the scan aborts at
`'\n'`/`'\r'`. -/
def dropThroughB64Tag : List Char → Option (List Char)
  | [] => none
  | c :: cs =>
      if ";base64,".data.isPrefixOf (c :: cs) then some ((c :: cs).drop 8)
      else if c = '\n' ∨ c = '\r' then none
      else dropThroughB64Tag cs

/-- `base64Str.replace(/^data:.*?;base64,/, '')`: strip a leading data-URL
marker when present. -/
def stripDataUrl (s : List Char) : List Char :=
  if "data:".data.isPrefixOf s then
    match dropThroughB64Tag (s.drop 5) with
    | some rest => rest
    | none => s
  else s

/-- `base64ToBytes` (utils.ts 99-117): strip a data-URL marker, try the
multiformats decoder after auto-prepending the `'m'` marker when absent,
and otherwise fall back to Node's forgiving decoder, accepting its result
only when re-encoding reproduces the cleaned input. -/
def base64ToBytes (base64Str : List Char) : Except (List Char) (List Nat) :=
  let cleanStr := stripDataUrl base64Str
  let prefixedStr := if cleanStr.head? = some 'm' then cleanStr else 'm' :: cleanStr
  match mfDecode prefixedStr with
  | some bytes => .ok bytes
  | none =>
      let buffer := nodeFromBase64 cleanStr
      if nodeToBase64 buffer = cleanStr then .ok buffer
      else .error "Invalid base64 format".data

/-- `streamToBase64` (utils.ts 125-144): drain the stream (modelled as its
chunk list), concatenate the chunks, then encode in the selected mode. -/
def streamToBase64 (chunks : List (List Nat)) (useMultiformatBase64 : Bool) : List Char :=
  let bytes := chunks.foldl (fun acc chunk => acc ++ chunk) []
  if useMultiformatBase64 then mfEncode bytes else nodeToBase64 bytes

example : streamToBase64 [[152, 0, 0]] false = "mAAA".data := by decide
example : base64ToBytes "mAAA".data = .ok [0, 0] := by rfl
example : base64ToBytes "AQID".data = .ok [1, 2, 3] := by rfl
example : streamToBase64 [[1, 2, 3]] true = "mAQID".data := by decide
example : base64ToBytes "mAQID".data = .ok [1, 2, 3] := by rfl
example : base64ToBytes "AQI*".data = .error "Invalid base64 format".data := by rfl
example : base64ToBytes "data:text/plain;base64,AQID".data = .ok [1, 2, 3] := by rfl
example : streamToBase64 [[152]] false = "mA==".data := by decide
example : base64ToBytes "mA==".data = .ok [152] := by rfl

/-! ### Round-trip lemmas for the base64 codec -/

theorem b64Val_b64Sym (v : Nat) (hv : v < 64) : b64Val (b64Sym v) = some v := by
  have h : ∀ i : Fin 64, b64Val (b64Sym i.val) = some i.val := by decide
  exact h ⟨v, hv⟩

theorem b64Sym_mem (v : Nat) : b64Sym v ∈ b64Alphabet := by
  have h : ∀ i : Fin 64, b64Sym i.val ∈ b64Alphabet := by decide
  have hm : v % 64 < 64 := Nat.mod_lt _ (by norm_num)
  have hs : b64Sym (v % 64) = b64Sym v := by
    simp [b64Sym, Nat.mod_mod_of_dvd _ (dvd_refl 64)]
  have := h ⟨v % 64, hm⟩
  rwa [hs] at this

theorem mem_b64Chars (bs : List Nat) (c : Char) (hc : c ∈ b64Chars bs) :
    c ∈ b64Alphabet := by
  induction bs using b64Chars.induct with
  | case1 => simp [b64Chars] at hc
  | case2 b1 =>
      simp [b64Chars] at hc
      rcases hc with h | h <;> (subst h; exact b64Sym_mem _)
  | case3 b1 b2 =>
      simp [b64Chars] at hc
      rcases hc with h | h | h <;> (subst h; exact b64Sym_mem _)
  | case4 b1 b2 b3 rest ih =>
      simp [b64Chars] at hc
      rcases hc with h | h | h | h | h
      · subst h; exact b64Sym_mem _
      · subst h; exact b64Sym_mem _
      · subst h; exact b64Sym_mem _
      · subst h; exact b64Sym_mem _
      · exact ih h

theorem mem_b64Pad (bs : List Nat) (c : Char) (hc : c ∈ b64Pad bs) : c = '=' := by
  induction bs using b64Pad.induct with
  | case1 => simp [b64Pad] at hc
  | case2 b1 => simp [b64Pad] at hc; exact hc
  | case3 b1 b2 => simp [b64Pad] at hc; exact hc
  | case4 b1 b2 b3 rest ih => simp only [b64Pad] at hc; exact ih hc

theorem bufPush_mod (B v M : Nat) (hM : 0 < M) (hv : v < 64)
    (hdvd : M * 64 ∣ 4294967296) : bufPush B v % (M * 64) = B % M * 64 + v := by
  unfold bufPush
  have h1 : B * 64 % 4294967296 % (M * 64) = B * 64 % (M * 64) :=
    Nat.mod_mod_of_dvd _ hdvd
  have h2 : B * 64 % (M * 64) = B % M * 64 := Nat.mul_mod_mul_right 64 B M
  have hlt : B % M < M := Nat.mod_lt _ hM
  have h3 : B % M * 64 + v < M * 64 := by omega
  have hv' : v % (M * 64) = v := Nat.mod_eq_of_lt (by omega)
  calc (B * 64 % 4294967296 + v) % (M * 64)
      = (B * 64 % 4294967296 % (M * 64) + v % (M * 64)) % (M * 64) := by
        rw [Nat.add_mod]
    _ = (B % M * 64 + v) % (M * 64) := by rw [h1, h2, hv']
    _ = B % M * 64 + v := Nat.mod_eq_of_lt h3

theorem mfDecodeLoop_b64Chars (bs : List Nat) :
    (∀ b ∈ bs, b < 256) → ∀ (buffer : Nat) (acc : List Nat),
      mfDecodeLoop (b64Chars bs) 0 buffer acc = some (acc.reverse ++ bs) := by
  induction bs using b64Chars.induct with
  | case1 => intro _ buffer acc; simp [b64Chars, mfDecodeLoop, Nat.mod_one]
  | case2 b1 =>
      intro h buffer acc
      have hb1 : b1 < 256 := h b1 (by simp)
      have hv1 : b1 / 4 < 64 := by omega
      have hv2 : b1 % 4 * 16 < 64 := by omega
      have e1 : bufPush buffer (b1 / 4) % 64 = b1 / 4 := by
        have := bufPush_mod buffer (b1 / 4) 1 one_pos hv1 ⟨67108864, by norm_num⟩
        simpa [Nat.mod_one] using this
      have e2 : bufPush (bufPush buffer (b1 / 4)) (b1 % 4 * 16) % 4096 =
          b1 / 4 * 64 + b1 % 4 * 16 := by
        have := bufPush_mod (bufPush buffer (b1 / 4)) (b1 % 4 * 16) 64
          (by norm_num) hv2 ⟨1048576, by norm_num⟩
        rw [e1] at this
        simpa using this
      have hX16 : bufPush (bufPush buffer (b1 / 4)) (b1 % 4 * 16) % 16 = 0 := by omega
      have hXbyte : bufPush (bufPush buffer (b1 / 4)) (b1 % 4 * 16) / 16 % 256 = b1 := by
        omega
      norm_num [b64Chars, mfDecodeLoop, b64Val_b64Sym _ hv1, b64Val_b64Sym _ hv2]
      norm_num [hX16, hXbyte]
  | case3 b1 b2 =>
      intro h buffer acc
      have hb1 : b1 < 256 := h b1 (by simp)
      have hb2 : b2 < 256 := h b2 (by simp)
      have hv1 : b1 / 4 < 64 := by omega
      have hv2 : b1 % 4 * 16 + b2 / 16 < 64 := by omega
      have hv3 : b2 % 16 * 4 < 64 := by omega
      have e1 : bufPush buffer (b1 / 4) % 64 = b1 / 4 := by
        have := bufPush_mod buffer (b1 / 4) 1 one_pos hv1 ⟨67108864, by norm_num⟩
        simpa [Nat.mod_one] using this
      have e2 : bufPush (bufPush buffer (b1 / 4)) (b1 % 4 * 16 + b2 / 16) % 4096 =
          b1 / 4 * 64 + (b1 % 4 * 16 + b2 / 16) := by
        have := bufPush_mod (bufPush buffer (b1 / 4)) (b1 % 4 * 16 + b2 / 16) 64
          (by norm_num) hv2 ⟨1048576, by norm_num⟩
        rw [e1] at this
        simpa using this
      have e3 : bufPush (bufPush (bufPush buffer (b1 / 4)) (b1 % 4 * 16 + b2 / 16))
          (b2 % 16 * 4) % 1024 =
          bufPush (bufPush buffer (b1 / 4)) (b1 % 4 * 16 + b2 / 16) % 16 * 64 +
            b2 % 16 * 4 := by
        have := bufPush_mod (bufPush (bufPush buffer (b1 / 4)) (b1 % 4 * 16 + b2 / 16))
          (b2 % 16 * 4) 16 (by norm_num) hv3 ⟨4194304, by norm_num⟩
        simpa using this
      have hbyte1 : bufPush (bufPush buffer (b1 / 4)) (b1 % 4 * 16 + b2 / 16) / 16 % 256 =
          b1 := by omega
      have hbyte2 : bufPush (bufPush (bufPush buffer (b1 / 4)) (b1 % 4 * 16 + b2 / 16))
          (b2 % 16 * 4) / 4 % 256 = b2 := by omega
      have hfin : bufPush (bufPush (bufPush buffer (b1 / 4)) (b1 % 4 * 16 + b2 / 16))
          (b2 % 16 * 4) % 4 = 0 := by omega
      norm_num [b64Chars, mfDecodeLoop, b64Val_b64Sym _ hv1, b64Val_b64Sym _ hv2,
        b64Val_b64Sym _ hv3]
      norm_num [hbyte1, hbyte2, hfin]
  | case4 b1 b2 b3 rest ih =>
      intro h buffer acc
      have hb1 : b1 < 256 := h b1 (by simp)
      have hb2 : b2 < 256 := h b2 (by simp)
      have hb3 : b3 < 256 := h b3 (by simp)
      have hrest : ∀ b ∈ rest, b < 256 := fun b hb => h b (by simp [hb])
      have hv1 : b1 / 4 < 64 := by omega
      have hv2 : b1 % 4 * 16 + b2 / 16 < 64 := by omega
      have hv3 : b2 % 16 * 4 + b3 / 64 < 64 := by omega
      have hv4 : b3 % 64 < 64 := by omega
      have e1 : bufPush buffer (b1 / 4) % 64 = b1 / 4 := by
        have := bufPush_mod buffer (b1 / 4) 1 one_pos hv1 ⟨67108864, by norm_num⟩
        simpa [Nat.mod_one] using this
      have e2 : bufPush (bufPush buffer (b1 / 4)) (b1 % 4 * 16 + b2 / 16) % 4096 =
          b1 / 4 * 64 + (b1 % 4 * 16 + b2 / 16) := by
        have := bufPush_mod (bufPush buffer (b1 / 4)) (b1 % 4 * 16 + b2 / 16) 64
          (by norm_num) hv2 ⟨1048576, by norm_num⟩
        rw [e1] at this
        simpa using this
      have e3 : bufPush (bufPush (bufPush buffer (b1 / 4)) (b1 % 4 * 16 + b2 / 16))
          (b2 % 16 * 4 + b3 / 64) % 1024 =
          bufPush (bufPush buffer (b1 / 4)) (b1 % 4 * 16 + b2 / 16) % 16 * 64 +
            (b2 % 16 * 4 + b3 / 64) := by
        have := bufPush_mod (bufPush (bufPush buffer (b1 / 4)) (b1 % 4 * 16 + b2 / 16))
          (b2 % 16 * 4 + b3 / 64) 16 (by norm_num) hv3 ⟨4194304, by norm_num⟩
        simpa using this
      have e4 : bufPush (bufPush (bufPush (bufPush buffer (b1 / 4))
          (b1 % 4 * 16 + b2 / 16)) (b2 % 16 * 4 + b3 / 64)) (b3 % 64) % 256 =
          bufPush (bufPush (bufPush buffer (b1 / 4)) (b1 % 4 * 16 + b2 / 16))
            (b2 % 16 * 4 + b3 / 64) % 4 * 64 + b3 % 64 := by
        have := bufPush_mod (bufPush (bufPush (bufPush buffer (b1 / 4))
          (b1 % 4 * 16 + b2 / 16)) (b2 % 16 * 4 + b3 / 64)) (b3 % 64) 4
          (by norm_num) hv4 ⟨16777216, by norm_num⟩
        simpa using this
      have hbyte1 : bufPush (bufPush buffer (b1 / 4)) (b1 % 4 * 16 + b2 / 16) / 16 % 256 =
          b1 := by omega
      have hbyte2 : bufPush (bufPush (bufPush buffer (b1 / 4)) (b1 % 4 * 16 + b2 / 16))
          (b2 % 16 * 4 + b3 / 64) / 4 % 256 = b2 := by omega
      have hbyte3 : bufPush (bufPush (bufPush (bufPush buffer (b1 / 4))
          (b1 % 4 * 16 + b2 / 16)) (b2 % 16 * 4 + b3 / 64)) (b3 % 64) % 256 =
          b3 := by omega
      norm_num [b64Chars, mfDecodeLoop, b64Val_b64Sym _ hv1, b64Val_b64Sym _ hv2,
        b64Val_b64Sym _ hv3, b64Val_b64Sym _ hv4]
      rw [hbyte1, hbyte2, hbyte3]
      rw [ih hrest]
      simp

theorem stripDataUrl_of_notColon (s : List Char) (h : ':' ∉ s) : stripDataUrl s = s := by
  unfold stripDataUrl
  have hp : ¬ ("data:".data <+: s) := by
    intro hpre
    rcases hpre with ⟨t, ht⟩
    apply h
    rw [← ht]
    exact List.mem_append.mpr (Or.inl (by decide))
  simp [hp]

theorem dropWhileEqSelf (l : List Char) (h : ∀ x ∈ l, x ∈ b64Alphabet) :
    l.dropWhile (· == '=') = l := by
  cases l with
  | nil => rfl
  | cons x t =>
      have hx : x ∈ b64Alphabet := h x (by simp)
      have hne : (x == '=') = false := by
        refine beq_eq_false_iff_ne.mpr ?_
        intro he; subst he; revert hx; decide
      simp [List.dropWhile_cons, hne]

theorem stripTrailingEq_alpha_pad (a pads : List Char)
    (ha : ∀ c ∈ a, c ∈ b64Alphabet) (hp : ∀ c ∈ pads, c = '=') :
    stripTrailingEq (a ++ pads) = a := by
  unfold stripTrailingEq
  rw [List.reverse_append]
  rw [List.dropWhile_append_of_pos
    (by intro c hc; have := hp c (List.mem_reverse.mp hc); simp [this])]
  rw [dropWhileEqSelf _ (by intro c hc; exact ha c (List.mem_reverse.mp hc))]
  exact List.reverse_reverse a

theorem stripTrailingEq_alpha (a : List Char) (ha : ∀ c ∈ a, c ∈ b64Alphabet) :
    stripTrailingEq a = a := by
  have := stripTrailingEq_alpha_pad a [] ha (by simp)
  simpa using this

theorem foldl_append_eq_flatten (chunks : List (List Nat)) :
    ∀ acc : List Nat, chunks.foldl (fun a c => a ++ c) acc = acc ++ chunks.flatten := by
  induction chunks with
  | nil => intro acc; simp
  | cons c t ih => intro acc; simp [List.foldl_cons, ih]

theorem base64ToBytes_mfEncode (bs : List Nat) (hb : ∀ b ∈ bs, b < 256) :
    base64ToBytes ('m' :: b64Chars bs) = .ok bs := by
  have hnc : ':' ∉ 'm' :: b64Chars bs := by
    intro hmem
    rcases List.mem_cons.mp hmem with h | h
    · exact absurd h (by decide)
    · have := mem_b64Chars bs ':' h; revert this; decide
  have hstrip : stripDataUrl ('m' :: b64Chars bs) = 'm' :: b64Chars bs :=
    stripDataUrl_of_notColon _ hnc
  have hdec : mfDecode ('m' :: b64Chars bs) = some bs := by
    show mfBaseDecode (b64Chars bs) = some bs
    unfold mfBaseDecode
    rw [stripTrailingEq_alpha _ (fun c hc => mem_b64Chars bs c hc),
        mfDecodeLoop_b64Chars bs hb 0 []]
    simp
  simp [base64ToBytes, hstrip, hdec]

theorem mem_nodeToBase64 (bs : List Nat) (c : Char) (hc : c ∈ nodeToBase64 bs) :
    c ∈ b64Alphabet ∨ c = '=' := by
  rcases List.mem_append.mp hc with h | h
  · exact Or.inl (mem_b64Chars bs c h)
  · exact Or.inr (mem_b64Pad bs c h)

theorem base64ToBytes_nodeToBase64 (bs : List Nat) (hb : ∀ b ∈ bs, b < 256)
    (hm : (nodeToBase64 bs).head? ≠ some 'm') :
    base64ToBytes (nodeToBase64 bs) = .ok bs := by
  have hnc : ':' ∉ nodeToBase64 bs := by
    intro hmemc
    rcases mem_nodeToBase64 bs ':' hmemc with h | h
    · revert h; decide
    · exact absurd h (by decide)
  have hstrip : stripDataUrl (nodeToBase64 bs) = nodeToBase64 bs :=
    stripDataUrl_of_notColon _ hnc
  have hdec : mfDecode ('m' :: nodeToBase64 bs) = some bs := by
    show mfBaseDecode (nodeToBase64 bs) = some bs
    unfold mfBaseDecode
    unfold nodeToBase64
    rw [stripTrailingEq_alpha_pad (b64Chars bs) (b64Pad bs)
          (fun c hc => mem_b64Chars bs c hc) (fun c hc => mem_b64Pad bs c hc),
        mfDecodeLoop_b64Chars bs hb 0 []]
    simp
  simp only [base64ToBytes, hstrip]
  rw [if_neg hm]
  simp [hdec]

/-- **C1** (amended).  Decoding the text produced by encoding a drained byte
stream returns exactly the original bytes in multiformat mode always, and in
standard mode whenever the standard encoding does not itself begin with the
multiformat marker character `'m'` (when it does, the decoder's
multiformat-first strategy can misinterpret it — see the counterexample). -/
theorem claim1_base64_roundtrip (chunks : List (List Nat)) (m : Bool)
    (hb : ∀ ch ∈ chunks, ∀ b ∈ ch, b < 256)
    (hm : m = false → (streamToBase64 chunks false).head? ≠ some 'm') :
    base64ToBytes (streamToBase64 chunks m) =
      Except.ok (chunks.foldl (fun acc chunk => acc ++ chunk) []) := by
  have hby : ∀ b ∈ chunks.foldl (fun acc chunk => acc ++ chunk) [], b < 256 := by
    rw [foldl_append_eq_flatten]
    intro b hbm
    simp only [List.nil_append, List.mem_flatten] at hbm
    rcases hbm with ⟨l, hl, hbl⟩
    exact hb l hl b hbl
  cases m with
  | true =>
      have he : streamToBase64 chunks true =
          'm' :: b64Chars (chunks.foldl (fun acc chunk => acc ++ chunk) []) := rfl
      rw [he]
      exact base64ToBytes_mfEncode _ hby
  | false =>
      have he : streamToBase64 chunks false =
          nodeToBase64 (chunks.foldl (fun acc chunk => acc ++ chunk) []) := rfl
      rw [he]
      exact base64ToBytes_nodeToBase64 _ hby (by rw [← he]; exact hm rfl)

/-- Witness for C1's amended theorem: round trip at bytes `[1, 2, 3]` in
standard mode. -/
theorem claim1_base64_roundtrip_witness :
    base64ToBytes (streamToBase64 [[1, 2, 3]] false) = Except.ok [1, 2, 3] := by
  have h := claim1_base64_roundtrip [[1, 2, 3]] false (by decide)
    (fun _ => by decide)
  exact h

/-- **C1** counterexample: the claim as stated is false.  Encoding the byte
sequence `[0x98, 0, 0]` in standard mode yields `"mAAA"`, which the decoder
misreads as a multiformat string and decodes to `[0, 0]`, not the original
bytes. -/
theorem claim1_counterexample :
    base64ToBytes (streamToBase64 [[152, 0, 0]] false) = Except.ok [0, 0] ∧
      Except.ok [0, 0] ≠ (Except.ok [152, 0, 0] : Except (List Char) (List Nat)) := by
  constructor
  · rfl
  · intro hcontra
    have h2 : ([0, 0] : List Nat) = [152, 0, 0] := by injection hcontra
    simp at h2

/-! ### Rejection of non-alphabet characters (C8) -/

theorem b64Val_eq_none (c : Char) (h : c ∉ b64Alphabet) : b64Val c = none := by
  unfold b64Val
  have haux : ∀ (l : List Char) (i : Nat), c ∉ l → b64IdxAux l c i = none := by
    intro l
    induction l with
    | nil => intro i _; rfl
    | cons a t ih =>
        intro i hn
        have ha : a ≠ c := fun he => hn (by simp [he])
        simp only [b64IdxAux, if_neg ha]
        exact ih _ (fun hc => hn (by simp [hc]))
  exact haux _ _ h

theorem mfDecodeLoop_none (l : List Char) :
    ∀ (bits buffer : Nat) (acc : List Nat), (∃ c ∈ l, b64Val c = none) →
      mfDecodeLoop l bits buffer acc = none := by
  induction l with
  | nil => intro _ _ _ h; rcases h with ⟨c, hc, _⟩; simp at hc
  | cons a t ih =>
      intro bits buffer acc h
      rcases h with ⟨c, hc, hv⟩
      rcases List.mem_cons.mp hc with rfl | hct
      · simp [mfDecodeLoop, hv]
      · cases hva : b64Val a with
        | none => simp [mfDecodeLoop, hva]
        | some v =>
            simp only [mfDecodeLoop, hva]
            split
            · exact ih _ _ _ ⟨c, hct, hv⟩
            · exact ih _ _ _ ⟨c, hct, hv⟩

theorem mem_stripTrailingEq (s : List Char) (c : Char) (hc : c ∈ s) (hne : c ≠ '=') :
    c ∈ stripTrailingEq s := by
  unfold stripTrailingEq
  rw [List.mem_reverse]
  have h1 : c ∈ s.reverse := List.mem_reverse.mpr hc
  revert h1
  generalize s.reverse = l
  intro h1
  induction l with
  | nil => simp at h1
  | cons a t ih =>
      rcases List.mem_cons.mp h1 with rfl | ht
      · have hf : (c == '=') = false := beq_eq_false_iff_ne.mpr hne
        simp [List.dropWhile_cons, hf]
      · cases hae : (a == '=') with
        | false => simp [List.dropWhile_cons, hae, ht]
        | true =>
            simp only [List.dropWhile_cons, hae, if_pos]
            exact ih ht

/-- **C8**: an input whose cleaned form (after data-URL stripping) contains a
character outside the base64 alphabet (and distinct from the `'='` padding
character) is rejected by `base64ToBytes` with the format error. -/
theorem claim8_invalid_char_rejected (s : List Char) (c : Char)
    (hc : c ∈ stripDataUrl s) (ha : c ∉ b64Alphabet) (hne : c ≠ '=') :
    base64ToBytes s = .error "Invalid base64 format".data := by
  have hvnone : b64Val c = none := b64Val_eq_none c ha
  have hmf : ∀ u : List Char, c ∈ u → mfBaseDecode u = none := by
    intro u hu
    unfold mfBaseDecode
    exact mfDecodeLoop_none _ _ _ _ ⟨c, mem_stripTrailingEq u c hu hne, hvnone⟩
  have hcm : c ≠ 'm' := fun he => ha (he ▸ (by decide : 'm' ∈ b64Alphabet))
  have hmfdec :
      mfDecode (if (stripDataUrl s).head? = some 'm' then stripDataUrl s
        else 'm' :: stripDataUrl s) = none := by
    split
    case isTrue h =>
      cases hs : stripDataUrl s with
      | nil => rw [hs] at h; simp at h
      | cons a rest =>
          rw [hs] at h
          have ha' : a = 'm' := by simpa using h
          subst ha'
          show mfBaseDecode rest = none
          apply hmf
          rw [hs] at hc
          rcases List.mem_cons.mp hc with rfl | hr
          · exact absurd rfl hcm
          · exact hr
    case isFalse h =>
      show mfBaseDecode (stripDataUrl s) = none
      exact hmf _ hc
  have hfb : nodeToBase64 (nodeFromBase64 (stripDataUrl s)) ≠ stripDataUrl s := by
    intro he
    have hcmem := hc
    rw [← he] at hcmem
    rcases mem_nodeToBase64 _ c hcmem with h | h
    · exact ha h
    · exact hne h
  simp only [base64ToBytes]
  rw [hmfdec]
  rw [if_neg hfb]

/-- Witness for C8: `"AQI*"` contains `'*'` and is rejected. -/
theorem claim8_invalid_char_rejected_witness :
    base64ToBytes "AQI*".data = .error "Invalid base64 format".data :=
  claim8_invalid_char_rejected "AQI*".data '*' (by decide) (by decide) (by decide)

/-! ## IPFS path parsing (src/core/storage/utils.ts)

`CID.parse` of the multiformats library is an external collaborator and is a
parameter `cidParse` (returning `none` where the library throws). -/

/-- The structured result of `parseIpfsPath` (types.ts `Resource`). -/
structure Resource (CidT : Type) where
  protocol : List Char
  cid : CidT
  pathname : List Char

/-- `IpfsPathError` carries a message and the original input path. -/
structure IpfsPathError where
  message : List Char
  path : List Char

/-- JS `String.prototype.indexOf` for a single character; `-1` becomes
`none`. -/
def strIndexOf (ch : Char) : List Char → Option Nat
  | [] => none
  | a :: t => if a = ch then some 0 else (strIndexOf ch t).map (· + 1)

/-- `normalizeIpfsPath` (utils.ts 78-92): strip an `ipfs://` scheme, then a
`/ipfs/` or `ipfs/` path marker, nothing else. -/
def normalizeIpfsPath (path : List Char) : List Char :=
  let p1 := if "ipfs://".data.isPrefixOf path then path.drop 7 else path
  if "/ipfs/".data.isPrefixOf p1 then p1.drop 6
  else if "ipfs/".data.isPrefixOf p1 then p1.drop 5
  else p1

/-- `parseIpfsPath` (utils.ts 28-69).  Its prefix-stripping steps (lines
29-41) are textually the same stripping performed by `normalizeIpfsPath`
(lines 79-91), so the embedding shares that code; then the remainder is
split at the first slash, an empty filename is rejected, and the CID
segment is handed to the parser. -/
def parseIpfsPath {CidT : Type} (cidParse : List Char → Option CidT)
    (path : List Char) : Except IpfsPathError (Resource CidT) :=
  let normalized := normalizeIpfsPath path
  match strIndexOf '/' normalized with
  | none =>
      .error ⟨"Invalid IPFS path: Must contain a slash separator between CID and filename".data,
        path⟩
  | some slashIndex =>
      let cidStr := normalized.take slashIndex
      let pathname := normalized.drop slashIndex
      if pathname.length ≤ 1 then
        .error ⟨"Invalid IPFS path: Filename cannot be empty".data, path⟩
      else
        match cidParse cidStr with
        | some cid => .ok ⟨"ipfs:".data, cid, pathname⟩
        | none =>
            .error ⟨"Invalid IPFS path: Invalid CID \"".data ++ cidStr ++ "\"".data, path⟩

/-- A concrete stand-in CID parser for witnesses: accepts one fixed string. -/
def demoCidParse (s : List Char) : Option (List Char) :=
  if s = "bafybeitest".data then some s else none

example : parseIpfsPath demoCidParse "bafybeitest/a.txt".data =
    .ok ⟨"ipfs:".data, "bafybeitest".data, "/a.txt".data⟩ := by rfl
example : parseIpfsPath demoCidParse "ipfs://bafybeitest/dir/s.txt".data =
    .ok ⟨"ipfs:".data, "bafybeitest".data, "/dir/s.txt".data⟩ := by rfl
example : normalizeIpfsPath "/ipfs/ipfs/a".data = "ipfs/a".data := by decide
example : normalizeIpfsPath "ipfs/a".data = "a".data := by decide

theorem ipfsSchemeChars : "ipfs://".data = ['i', 'p', 'f', 's', ':', '/', '/'] := rfl

theorem slashIpfsChars : "/ipfs/".data = ['/', 'i', 'p', 'f', 's', '/'] := rfl

theorem bareIpfsChars : "ipfs/".data = ['i', 'p', 'f', 's', '/'] := rfl

theorem schemePfx_false (c p' : List Char) (hs : '/' ∉ c) (hco : ':' ∉ c)
    (hne : c ≠ []) : "ipfs://".data.isPrefixOf (c ++ '/' :: p') = false := by
  rw [ipfsSchemeChars]
  rcases c with _ | ⟨a, _ | ⟨b, _ | ⟨d, _ | ⟨e, _ | ⟨f, t⟩⟩⟩⟩⟩
  · exact absurd rfl hne
  · simp [List.isPrefixOf]
  · simp [List.isPrefixOf]
  · simp [List.isPrefixOf]
  · simp [List.isPrefixOf]
  · have hf : f ∈ a :: b :: d :: e :: f :: t := by simp
    have hbe : (':' == f) = false :=
      beq_eq_false_iff_ne.mpr (fun he => hco (by rw [he]; exact hf))
    simp [List.isPrefixOf, hbe]

theorem slashPfx_false (c p' : List Char) (hs : '/' ∉ c) (hne : c ≠ []) :
    "/ipfs/".data.isPrefixOf (c ++ '/' :: p') = false := by
  rw [slashIpfsChars]
  cases c with
  | nil => exact absurd rfl hne
  | cons a t =>
      have hbe : ('/' == a) = false :=
        beq_eq_false_iff_ne.mpr (fun he => hs (by rw [he]; exact List.mem_cons_self a t))
      simp [List.isPrefixOf, hbe]

theorem bareIpfsPfx_false (c p' : List Char) (hs : '/' ∉ c) (hne : c ≠ [])
    (hipfs : c ≠ "ipfs".data) : "ipfs/".data.isPrefixOf (c ++ '/' :: p') = false := by
  rw [bareIpfsChars]
  rcases c with _ | ⟨a, _ | ⟨b, _ | ⟨d, _ | ⟨e, t⟩⟩⟩⟩
  · exact absurd rfl hne
  · simp [List.isPrefixOf]
  · simp [List.isPrefixOf]
  · simp [List.isPrefixOf]
  · cases t with
    | nil =>
        by_cases hai : a = 'i' ∧ b = 'p' ∧ d = 'f' ∧ e = 's'
        · exfalso
          apply hipfs
          obtain ⟨h1, h2, h3, h4⟩ := hai
          subst h1; subst h2; subst h3; subst h4
          rfl
        · simp only [List.cons_append, List.nil_append, List.isPrefixOf,
            List.isPrefixOf_cons₂]
          simp [Bool.and_eq_false_iff, beq_eq_false_iff_ne]
          tauto
    | cons f t2 =>
        have hf : ('/' == f) = false :=
          beq_eq_false_iff_ne.mpr (fun he => hs (by rw [he]; simp))
        simp [List.isPrefixOf, hf]

theorem normalize_bare (c p' : List Char) (hs : '/' ∉ c) (hco : ':' ∉ c)
    (hne : c ≠ []) (hipfs : c ≠ "ipfs".data) :
    normalizeIpfsPath (c ++ '/' :: p') = c ++ '/' :: p' := by
  unfold normalizeIpfsPath
  simp [schemePfx_false c p' hs hco hne, slashPfx_false c p' hs hne,
    bareIpfsPfx_false c p' hs hne hipfs]

theorem normalize_slashIpfs (r : List Char) :
    normalizeIpfsPath ("/ipfs/".data ++ r) = r := by
  have h1 : "ipfs://".data.isPrefixOf ("/ipfs/".data ++ r) = false := by
    rw [ipfsSchemeChars, slashIpfsChars]
    simp [List.isPrefixOf]
  have h2 : "/ipfs/".data.isPrefixOf ("/ipfs/".data ++ r) = true :=
    List.isPrefixOf_iff_prefix.mpr (List.prefix_append _ _)
  have h3 : ("/ipfs/".data ++ r).drop 6 = r := List.drop_left' rfl
  unfold normalizeIpfsPath
  simp [h1, h2, h3]

theorem normalize_bareIpfsForm (r : List Char) :
    normalizeIpfsPath ("ipfs/".data ++ r) = r := by
  have h1 : "ipfs://".data.isPrefixOf ("ipfs/".data ++ r) = false := by
    rw [ipfsSchemeChars, bareIpfsChars]
    simp [List.isPrefixOf]
  have h2 : "/ipfs/".data.isPrefixOf ("ipfs/".data ++ r) = false := by
    rw [slashIpfsChars, bareIpfsChars]
    simp [List.isPrefixOf]
  have h3 : "ipfs/".data.isPrefixOf ("ipfs/".data ++ r) = true :=
    List.isPrefixOf_iff_prefix.mpr (List.prefix_append _ _)
  have h4 : ("ipfs/".data ++ r).drop 5 = r := List.drop_left' rfl
  unfold normalizeIpfsPath
  simp [h1, h2, h3, h4]

theorem normalize_scheme (c p' : List Char) (hs : '/' ∉ c) (hne : c ≠ [])
    (hipfs : c ≠ "ipfs".data) :
    normalizeIpfsPath ("ipfs://".data ++ (c ++ '/' :: p')) = c ++ '/' :: p' := by
  have h1 : "ipfs://".data.isPrefixOf ("ipfs://".data ++ (c ++ '/' :: p')) = true :=
    List.isPrefixOf_iff_prefix.mpr (List.prefix_append _ _)
  have hdrop : ("ipfs://".data ++ (c ++ '/' :: p')).drop 7 = c ++ '/' :: p' :=
    List.drop_left' rfl
  unfold normalizeIpfsPath
  simp [h1, hdrop, slashPfx_false c p' hs hne, bareIpfsPfx_false c p' hs hne hipfs]

theorem strIndexOf_append (c p' : List Char) (h : '/' ∉ c) :
    strIndexOf '/' (c ++ '/' :: p') = some c.length := by
  induction c with
  | nil => simp [strIndexOf]
  | cons a t ih =>
      have ha : a ≠ '/' := fun he => h (by rw [← he]; exact List.mem_cons_self a t)
      have ht : '/' ∉ t := fun hm => h (by simp [hm])
      simp [strIndexOf, ha, ih ht]

theorem strIndexOf_drop (ch : Char) (l : List Char) :
    ∀ i, strIndexOf ch l = some i → (l.drop i).head? = some ch := by
  induction l with
  | nil => intro i h; simp [strIndexOf] at h
  | cons a t ih =>
      intro i h
      by_cases ha : a = ch
      · simp only [strIndexOf, if_pos ha] at h
        have hi : i = 0 := by injection h with h'; omega
        subst hi
        simp [ha]
      · simp only [strIndexOf, if_neg ha] at h
        rw [Option.map_eq_some'] at h
        obtain ⟨j, hj, hji⟩ := h
        subst hji
        rw [List.drop_succ_cons]
        exact ih j hj

theorem parseIpfsPath_of_normalized {CidT : Type} (cidParse : List Char → Option CidT)
    (path c p' : List Char) (hn : normalizeIpfsPath path = c ++ '/' :: p')
    (hs : '/' ∉ c) (hp : p' ≠ []) :
    parseIpfsPath cidParse path =
      (match cidParse c with
      | some cid => .ok ⟨"ipfs:".data, cid, '/' :: p'⟩
      | none => .error ⟨"Invalid IPFS path: Invalid CID \"".data ++ c ++ "\"".data, path⟩) := by
  have htake : (c ++ '/' :: p').take c.length = c := List.take_left c _
  have hdrop : (c ++ '/' :: p').drop c.length = '/' :: p' := List.drop_left c _
  simp only [parseIpfsPath, hn, strIndexOf_append c p' hs, htake, hdrop]
  have hlen : ¬ (('/' :: p').length ≤ 1) := by
    cases p' with
    | nil => exact absurd rfl hp
    | cons x xs => simp [List.length_cons]
  rw [if_neg hlen]

/-- **C2**: for a valid content-id string `c` (accepted by the CID parser,
containing no `'/'` or `':'`, nonempty and distinct from the literal
`"ipfs"`) and a non-empty filename part `p'`, the four surface forms
`c/p'`, `/ipfs/c/p'`, `ipfs/c/p'` and `ipfs://c/p'` all parse to the
identical Resource. -/
theorem claim2_four_forms {CidT : Type} (cidParse : List Char → Option CidT)
    (c p' : List Char) (cid : CidT) (hcid : cidParse c = some cid)
    (hs : '/' ∉ c) (hco : ':' ∉ c) (hne : c ≠ []) (hipfs : c ≠ "ipfs".data)
    (hp : p' ≠ []) :
    parseIpfsPath cidParse (c ++ '/' :: p') =
        .ok ⟨"ipfs:".data, cid, '/' :: p'⟩ ∧
      parseIpfsPath cidParse ("/ipfs/".data ++ (c ++ '/' :: p')) =
        .ok ⟨"ipfs:".data, cid, '/' :: p'⟩ ∧
      parseIpfsPath cidParse ("ipfs/".data ++ (c ++ '/' :: p')) =
        .ok ⟨"ipfs:".data, cid, '/' :: p'⟩ ∧
      parseIpfsPath cidParse ("ipfs://".data ++ (c ++ '/' :: p')) =
        .ok ⟨"ipfs:".data, cid, '/' :: p'⟩ := by
  refine ⟨?_, ?_, ?_, ?_⟩
  · rw [parseIpfsPath_of_normalized cidParse _ c p'
      (normalize_bare c p' hs hco hne hipfs) hs hp, hcid]
  · rw [parseIpfsPath_of_normalized cidParse _ c p'
      (normalize_slashIpfs (c ++ '/' :: p')) hs hp, hcid]
  · rw [parseIpfsPath_of_normalized cidParse _ c p'
      (normalize_bareIpfsForm (c ++ '/' :: p')) hs hp, hcid]
  · rw [parseIpfsPath_of_normalized cidParse _ c p'
      (normalize_scheme c p' hs hne hipfs) hs hp, hcid]

/-- Witness for C2 at the demo CID parser and `bafybeitest/a.txt`. -/
theorem claim2_four_forms_witness :
    parseIpfsPath demoCidParse ("bafybeitest".data ++ '/' :: "a.txt".data) =
        .ok ⟨"ipfs:".data, "bafybeitest".data, '/' :: "a.txt".data⟩ ∧
      parseIpfsPath demoCidParse ("/ipfs/".data ++ ("bafybeitest".data ++ '/' :: "a.txt".data)) =
        .ok ⟨"ipfs:".data, "bafybeitest".data, '/' :: "a.txt".data⟩ ∧
      parseIpfsPath demoCidParse ("ipfs/".data ++ ("bafybeitest".data ++ '/' :: "a.txt".data)) =
        .ok ⟨"ipfs:".data, "bafybeitest".data, '/' :: "a.txt".data⟩ ∧
      parseIpfsPath demoCidParse ("ipfs://".data ++ ("bafybeitest".data ++ '/' :: "a.txt".data)) =
        .ok ⟨"ipfs:".data, "bafybeitest".data, '/' :: "a.txt".data⟩ :=
  claim2_four_forms demoCidParse "bafybeitest".data "a.txt".data "bafybeitest".data
    (by rfl) (by decide) (by decide) (by decide) (by decide) (by decide)

theorem parse_eq_noSlash {CidT : Type} (cidParse : List Char → Option CidT)
    (path : List Char) (h : strIndexOf '/' (normalizeIpfsPath path) = none) :
    parseIpfsPath cidParse path =
      .error ⟨"Invalid IPFS path: Must contain a slash separator between CID and filename".data,
        path⟩ := by
  simp only [parseIpfsPath, h]

theorem parse_eq_emptyName {CidT : Type} (cidParse : List Char → Option CidT)
    (path : List Char) (i : Nat) (h : strIndexOf '/' (normalizeIpfsPath path) = some i)
    (hl : ((normalizeIpfsPath path).drop i).length ≤ 1) :
    parseIpfsPath cidParse path =
      .error ⟨"Invalid IPFS path: Filename cannot be empty".data, path⟩ := by
  simp only [parseIpfsPath, h]
  rw [if_pos hl]

theorem parse_eq_badCid {CidT : Type} (cidParse : List Char → Option CidT)
    (path : List Char) (i : Nat) (h : strIndexOf '/' (normalizeIpfsPath path) = some i)
    (hl : ¬ ((normalizeIpfsPath path).drop i).length ≤ 1)
    (hc : cidParse ((normalizeIpfsPath path).take i) = none) :
    parseIpfsPath cidParse path =
      .error ⟨"Invalid IPFS path: Invalid CID \"".data ++
        (normalizeIpfsPath path).take i ++ "\"".data, path⟩ := by
  simp only [parseIpfsPath, h, hc]
  rw [if_neg hl]

theorem parse_eq_ok {CidT : Type} (cidParse : List Char → Option CidT)
    (path : List Char) (i : Nat) (cid : CidT)
    (h : strIndexOf '/' (normalizeIpfsPath path) = some i)
    (hl : ¬ ((normalizeIpfsPath path).drop i).length ≤ 1)
    (hc : cidParse ((normalizeIpfsPath path).take i) = some cid) :
    parseIpfsPath cidParse path =
      .ok ⟨"ipfs:".data, cid, (normalizeIpfsPath path).drop i⟩ := by
  simp only [parseIpfsPath, h, hc]
  rw [if_neg hl]

/-- **C7**: `parseIpfsPath` fails — with an error carrying the original
input — exactly when, after prefix stripping, there is no separating slash,
or the segment after the slash is empty, or the content-id segment is not
accepted by the CID parser; and on success the returned pathname is
non-empty, begins with `'/'`, and the content id comes from a successful
parse of the stripped CID segment. -/
theorem claim7_parse_errors {CidT : Type} (cidParse : List Char → Option CidT)
    (path : List Char) :
    ((∃ e, parseIpfsPath cidParse path = .error e ∧ e.path = path) ↔
      (strIndexOf '/' (normalizeIpfsPath path) = none ∨
        ∃ i, strIndexOf '/' (normalizeIpfsPath path) = some i ∧
          (((normalizeIpfsPath path).drop i).length ≤ 1 ∨
            cidParse ((normalizeIpfsPath path).take i) = none))) ∧
    (∀ r : Resource CidT, parseIpfsPath cidParse path = .ok r →
      r.pathname ≠ [] ∧ r.pathname.head? = some '/' ∧
        ∃ i, strIndexOf '/' (normalizeIpfsPath path) = some i ∧
          cidParse ((normalizeIpfsPath path).take i) = some r.cid ∧
          r.pathname = (normalizeIpfsPath path).drop i) := by
  constructor
  · constructor
    · rintro ⟨e, he, _⟩
      cases hidx : strIndexOf '/' (normalizeIpfsPath path) with
      | none => exact Or.inl rfl
      | some i =>
          by_cases hl : ((normalizeIpfsPath path).drop i).length ≤ 1
          · exact Or.inr ⟨i, rfl, Or.inl hl⟩
          · cases hc : cidParse ((normalizeIpfsPath path).take i) with
            | none => exact Or.inr ⟨i, rfl, Or.inr hc⟩
            | some cid =>
                rw [parse_eq_ok cidParse path i cid hidx hl hc] at he
                cases he
    · rintro (hnone | ⟨i, hsome, hrest⟩)
      · exact ⟨_, parse_eq_noSlash cidParse path hnone, rfl⟩
      · rcases hrest with hl | hc
        · exact ⟨_, parse_eq_emptyName cidParse path i hsome hl, rfl⟩
        · by_cases hl' : ((normalizeIpfsPath path).drop i).length ≤ 1
          · exact ⟨_, parse_eq_emptyName cidParse path i hsome hl', rfl⟩
          · exact ⟨_, parse_eq_badCid cidParse path i hsome hl' hc, rfl⟩
  · intro r hr
    cases hidx : strIndexOf '/' (normalizeIpfsPath path) with
    | none =>
        rw [parse_eq_noSlash cidParse path hidx] at hr
        cases hr
    | some i =>
        by_cases hl : ((normalizeIpfsPath path).drop i).length ≤ 1
        · rw [parse_eq_emptyName cidParse path i hidx hl] at hr
          cases hr
        · cases hc : cidParse ((normalizeIpfsPath path).take i) with
          | none =>
              rw [parse_eq_badCid cidParse path i hidx hl hc] at hr
              cases hr
          | some cid =>
              rw [parse_eq_ok cidParse path i cid hidx hl hc] at hr
              have hr' : r = ⟨"ipfs:".data, cid, (normalizeIpfsPath path).drop i⟩ :=
                (Except.ok.inj hr).symm
              subst hr'
              have hhead := strIndexOf_drop '/' (normalizeIpfsPath path) i hidx
              refine ⟨?_, hhead, i, rfl, hc, rfl⟩
              intro hnil
              have hnil' : (normalizeIpfsPath path).drop i = [] := hnil
              rw [hnil'] at hhead
              simp at hhead

/-- Witness for C7: exercises the success side and one failure side at
concrete inputs. -/
theorem claim7_parse_errors_witness :
    (∃ e, parseIpfsPath demoCidParse "noslash".data = .error e ∧
      e.path = "noslash".data) ∧
    (Resource.pathname ⟨"ipfs:".data, "bafybeitest".data, "/a.txt".data⟩ ≠ [] ∧
      ([] : List Char) = [] ) := by
  constructor
  · exact (claim7_parse_errors demoCidParse "noslash".data).1.mpr (Or.inl (by decide))
  · refine ⟨?_, rfl⟩
    have h := (claim7_parse_errors demoCidParse "bafybeitest/a.txt".data).2
      ⟨"ipfs:".data, "bafybeitest".data, "/a.txt".data⟩ (by rfl)
    exact h.1

/-- **C9** counterexample: `normalizeIpfsPath` is not idempotent.  On
`/ipfs/ipfs/a` one application yields `ipfs/a`, and a second application
strips again, yielding `a`. -/
theorem claim9_counterexample :
    normalizeIpfsPath (normalizeIpfsPath "/ipfs/ipfs/a".data) ≠
      normalizeIpfsPath "/ipfs/ipfs/a".data := by decide

/-- **C9** (amended): `normalizeIpfsPath` performs only the prefix-stripping
step — its result is always a suffix of the input, and it never fails and
never consults a CID parser — and it is idempotent on every input whose
normalized form does not itself begin with one of the recognized prefixes
(it is not idempotent in general, see the counterexample). -/
theorem claim9_normalize (s : List Char)
    (h : ("ipfs://".data.isPrefixOf (normalizeIpfsPath s) ||
      "/ipfs/".data.isPrefixOf (normalizeIpfsPath s) ||
      "ipfs/".data.isPrefixOf (normalizeIpfsPath s)) = false) :
    normalizeIpfsPath (normalizeIpfsPath s) = normalizeIpfsPath s ∧
      (normalizeIpfsPath s).isSuffixOf s = true := by
  constructor
  · simp only [Bool.or_eq_false_iff] at h
    obtain ⟨⟨h1, h2⟩, h3⟩ := h
    generalize ht : normalizeIpfsPath s = t at h1 h2 h3
    simp [normalizeIpfsPath, h1, h2, h3]
  · rw [List.isSuffixOf_iff_suffix]
    have key : ∀ t : List Char,
        (if "/ipfs/".data.isPrefixOf t then t.drop 6
          else if "ipfs/".data.isPrefixOf t then t.drop 5 else t) <:+ t := by
      intro t
      split
      · exact List.drop_suffix 6 t
      · split
        · exact List.drop_suffix 5 t
        · exact List.suffix_refl t
    have hp1 : (if "ipfs://".data.isPrefixOf s then s.drop 7 else s) <:+ s := by
      split
      · exact List.drop_suffix 7 s
      · exact List.suffix_refl s
    simp only [normalizeIpfsPath]
    exact (key _).trans hp1

/-- Witness for C9's amended theorem at `ipfs://c/x`. -/
theorem claim9_normalize_witness :
    normalizeIpfsPath (normalizeIpfsPath "ipfs://c/x".data) =
        normalizeIpfsPath "ipfs://c/x".data ∧
      (normalizeIpfsPath "ipfs://c/x".data).isSuffixOf "ipfs://c/x".data = true :=
  claim9_normalize "ipfs://c/x".data (by decide)

/-! ## Storacha client (src/core/storage/client.ts)

The storage network client (`Storage.create`/`uploadDirectory`), the fetch
API and the CAR/unixfs exporter are external collaborators; the functions
below take their outcomes as parameters. -/

/-- A WHATWG URL reduced to what the client uses: an origin and the
path-plus-query part. -/
structure Url where
  origin : List Char
  pathAndQuery : List Char

/-- `new URL(ref, base)` for an absolute-path reference: the base's origin
is kept, its path and query are replaced by the reference. -/
def resolveUrl (base : Url) (ref : List Char) : Url := ⟨base.origin, ref⟩

/-- The storage config as the client sees it after the constructor ran: the
constructor always fills `gatewayUrl` (`config.gatewayUrl || DEFAULT`), and
the signer/delegation values are opaque — only their presence matters. -/
structure StorageConfig where
  hasSigner : Bool
  hasDelegation : Bool
  gatewayUrl : Url

/-- The mutable state of a `StorachaClient`: whether `this.initialized`
(the stored promise) and `this.storage` are non-null. -/
structure ClientState where
  config : StorageConfig
  initialized : Bool
  storageSet : Bool

/-- `isConnected` (client.ts 122-124): `this.initialized !== null`. -/
def isConnected (st : ClientState) : Bool := st.initialized

/-- `initialize` (client.ts 69-109).  The signer/delegation presence checks
throw before `this.initialized` is assigned; once they pass, the promise is
stored synchronously, and the asynchronous construction — whose success is
the parameter `asyncOk` — only determines whether `this.storage` is set. -/
def initializeStep (st : ClientState) (asyncOk : Bool) : ClientState :=
  if st.initialized then st
  else if ¬ st.config.hasSigner then st
  else if ¬ st.config.hasDelegation then st
  else { st with initialized := true, storageSet := asyncOk }

/-- A sequence of `initialize` calls with arbitrary async outcomes. -/
def runInits (st : ClientState) (outcomes : List Bool) : ClientState :=
  outcomes.foldl initializeStep st

/-- An input file: name plus base64 content (types.ts `UploadFile`). -/
structure UploadFile where
  name : List Char
  content : List Char

/-- Upload options; `signalAborted` models `options.signal?.aborted`. -/
structure UploadOptions where
  signalAborted : Bool
  retries : Option Nat
  publishToFilecoin : Option Bool

/-- A link reported once per durably linked entry by the
`onDirectoryEntryLink` callback of `uploadDirectory`. -/
structure DirectoryEntryLink (CidT : Type) where
  name : List Char
  cid : CidT

structure UploadResult (CidT : Type) where
  root : CidT
  url : Url
  files : List (List Char × CidT)

/-- JS `Map.prototype.set`: update in place when the key exists (keeping
its position), append otherwise. -/
def mapSet {CidT : Type} : List (List Char × CidT) → List Char → CidT →
    List (List Char × CidT)
  | [], k, v => [(k, v)]
  | (k', v') :: rest, k, v =>
      if k' = k then (k', v) :: rest else (k', v') :: mapSet rest k v

/-- The body of the `onDirectoryEntryLink` callback (client.ts 175-179):
`if (entry.name && entry.name !== '') uploadedFiles.set(entry.name,
entry.cid)` — an absent or empty name is both modelled by `[]`. -/
def entryFold {CidT : Type} (m : List (List Char × CidT))
    (entry : DirectoryEntryLink CidT) : List (List Char × CidT) :=
  if entry.name ≠ [] then mapSet m entry.name entry.cid else m

/-- `uploadFiles` (client.ts 154-187), parameterized by the outcome of the
external `storage.uploadDirectory` call: its thrown error, or its root
together with the `DirectoryEntryLink`s it reported through the callback.
The second component counts how many times the directory build (the only
network call) was invoked. -/
def uploadFiles {CidT : Type} (cidToStr : CidT → List Char) (st : ClientState)
    (files : List UploadFile) (opts : UploadOptions)
    (uploadDir : Except (List Char) (CidT × List (DirectoryEntryLink CidT))) :
    Except (List Char) (UploadResult CidT) × Nat :=
  if ¬ st.initialized ∨ ¬ st.storageSet then (.error "Client not initialized".data, 0)
  else if opts.signalAborted then (.error "Upload aborted".data, 0)
  else
    match files.mapM (fun f => base64ToBytes f.content) with
    | .error e => (.error e, 0)
    | .ok _fileBytes =>
        match uploadDir with
        | .error e => (.error e, 1)
        | .ok (root, entries) =>
            (.ok ⟨root, resolveUrl st.config.gatewayUrl ("/ipfs/".data ++ cidToStr root),
              entries.foldl entryFold []⟩, 1)

/-- The metadata of a fetch `Response` that `retrieve` consults. -/
structure FetchResponse where
  status : Nat
  statusText : List Char
  contentType : Option (List Char)

/-- WHATWG `Response.ok`: status in the 2xx range. -/
def responseOk (r : FetchResponse) : Prop := 200 ≤ r.status ∧ r.status < 300

instance (r : FetchResponse) : Decidable (responseOk r) :=
  inferInstanceAs (Decidable (200 ≤ r.status ∧ r.status < 300))

structure RetrieveResult where
  data : List Char
  type : Option (List Char)

/-- The errors `retrieve` can raise: a propagated path error, the HTTP
error of a non-2xx response, or a failure of the CAR decode / DAG export. -/
inductive RetrieveError
  | pathError (e : IpfsPathError)
  | fetchError (message : List Char)
  | exportError (message : List Char)

/-- The gateway request URL `retrieve` builds (client.ts 201-202):
`new URL(`/ipfs/${cid}${pathname}?format=car`, gatewayUrl)`. -/
def retrieveUrl {CidT : Type} (cidToStr : CidT → List Char) (gatewayUrl : Url)
    (r : Resource CidT) : Url :=
  resolveUrl gatewayUrl
    ("/ipfs/".data ++ (cidToStr r.cid ++ r.pathname) ++ "?format=car".data)

/-- `retrieve` (client.ts 196-228): parse the filepath, fetch the CAR from
the gateway (the single network call; issued requests are logged in the
second component), fail on a non-2xx status, otherwise export the file's
bytes (`carExport` stands for the external CAR reader / unixfs exporter,
yielding the chunks of `entry.content()`) and base64-encode them. -/
def retrieve {CidT : Type} (cidParse : List Char → Option CidT)
    (cidToStr : CidT → List Char) (gatewayUrl : Url) (filepath : List Char)
    (useMultiformatBase64 : Bool) (fetchFn : Url → FetchResponse)
    (carExport : Except (List Char) (List (List Nat))) :
    Except RetrieveError RetrieveResult × List Url :=
  match parseIpfsPath cidParse filepath with
  | .error e => (.error (.pathError e), [])
  | .ok resource =>
      let url := retrieveUrl cidToStr gatewayUrl resource
      let response := fetchFn url
      if responseOk response then
        match carExport with
        | .error e => (.error (.exportError e), [url])
        | .ok chunks =>
            (.ok ⟨streamToBase64 chunks useMultiformatBase64, response.contentType⟩, [url])
      else
        (.error (.fetchError ("Error fetching file: ".data ++
          (Nat.repr response.status).data ++ [' '] ++ response.statusText)), [url])

/-- **C4**: `uploadFiles` fails with "Client not initialized" and performs
zero network calls when the pipeline is not initialized, and — once
initialized — fails immediately with "Upload aborted" and zero network
calls when the cancellation signal is already aborted at entry (the
directory build is never invoked in either case). -/
theorem claim4_upload_guards {CidT : Type} (cidToStr : CidT → List Char)
    (st : ClientState) (files : List UploadFile) (opts : UploadOptions)
    (uploadDir : Except (List Char) (CidT × List (DirectoryEntryLink CidT))) :
    (¬ st.initialized ∨ ¬ st.storageSet →
      uploadFiles cidToStr st files opts uploadDir =
        (.error "Client not initialized".data, 0)) ∧
    (st.initialized = true → st.storageSet = true → opts.signalAborted = true →
      uploadFiles cidToStr st files opts uploadDir =
        (.error "Upload aborted".data, 0)) := by
  constructor
  · intro h
    unfold uploadFiles
    rw [if_pos h]
  · intro h1 h2 h3
    unfold uploadFiles
    rw [if_neg (by simp [h1, h2]), if_pos h3]

/-- Witness for C4 at concrete states. -/
theorem claim4_upload_guards_witness :
    uploadFiles (fun _ : Nat => []) ⟨⟨true, true, ⟨[], []⟩⟩, false, false⟩ []
        ⟨false, none, none⟩ (.ok (0, [])) = (.error "Client not initialized".data, 0) ∧
      uploadFiles (fun _ : Nat => []) ⟨⟨true, true, ⟨[], []⟩⟩, true, true⟩ []
        ⟨true, none, none⟩ (.ok (0, [])) = (.error "Upload aborted".data, 0) := by
  constructor
  · exact (claim4_upload_guards (fun _ : Nat => []) ⟨⟨true, true, ⟨[], []⟩⟩, false, false⟩
      [] ⟨false, none, none⟩ (.ok (0, []))).1 (Or.inl (by simp))
  · exact (claim4_upload_guards (fun _ : Nat => []) ⟨⟨true, true, ⟨[], []⟩⟩, true, true⟩
      [] ⟨true, none, none⟩ (.ok (0, []))).2 rfl rfl rfl

theorem isConnected_initializeStep (st : ClientState) (b : Bool) :
    isConnected (initializeStep st b) =
      (isConnected st || (st.config.hasSigner && st.config.hasDelegation)) := by
  unfold initializeStep isConnected
  by_cases h1 : st.initialized
  · rw [if_pos h1]; simp [h1]
  · rw [if_neg h1]
    by_cases h2 : st.config.hasSigner
    · rw [if_neg (by simp [h2])]
      by_cases h3 : st.config.hasDelegation
      · rw [if_neg (by simp [h3])]
        simp [h1, h2, h3]
      · rw [if_pos (by simpa using h3)]
        simp [h1, h2, h3]
    · rw [if_pos (by simpa using h2)]
      simp [h1, h2]

theorem config_initializeStep (st : ClientState) (b : Bool) :
    (initializeStep st b).config = st.config := by
  unfold initializeStep
  split
  · rfl
  · split
    · rfl
    · split
      · rfl
      · rfl

/-- **C10**: `isConnected` is true exactly when some `initialize` call has
run against a config passing the signer/delegation presence checks — the
asynchronous construction's outcome (each entry of `outcomes`) is
irrelevant, so it stays true while construction is pending or after it
failed — and once true it never reverts to false. -/
theorem claim10_isConnected (st : ClientState) (outcomes : List Bool) :
    isConnected (runInits st outcomes) =
        (isConnected st ||
          (!outcomes.isEmpty && (st.config.hasSigner && st.config.hasDelegation))) ∧
      (isConnected st = true → isConnected (runInits st outcomes) = true) := by
  have key : ∀ (o : List Bool) (s : ClientState),
      isConnected (runInits s o) =
        (isConnected s ||
          (!o.isEmpty && (s.config.hasSigner && s.config.hasDelegation))) := by
    intro o
    induction o with
    | nil => intro s; simp [runInits]
    | cons b t ih =>
        intro s
        have hstep : runInits s (b :: t) = runInits (initializeStep s b) t := rfl
        rw [hstep, ih, isConnected_initializeStep, config_initializeStep]
        cases hs : isConnected s <;>
          cases h1 : s.config.hasSigner <;>
          cases h2 : s.config.hasDelegation <;>
          simp
  refine ⟨key outcomes st, ?_⟩
  intro h
  rw [key outcomes st, h]
  simp

/-- Witness for C10: a fresh client whose `initialize` fails asynchronously
still reports connected, and an already-connected client stays connected. -/
theorem claim10_isConnected_witness :
    isConnected (runInits ⟨⟨true, true, ⟨[], []⟩⟩, false, false⟩ [false]) =
        (isConnected (⟨⟨true, true, ⟨[], []⟩⟩, false, false⟩ : ClientState) ||
          (!([false] : List Bool).isEmpty && (true && true))) ∧
      isConnected (runInits ⟨⟨false, false, ⟨[], []⟩⟩, true, true⟩ [true]) = true := by
  constructor
  · exact (claim10_isConnected ⟨⟨true, true, ⟨[], []⟩⟩, false, false⟩ [false]).1
  · exact (claim10_isConnected ⟨⟨false, false, ⟨[], []⟩⟩, true, true⟩ [true]).2 rfl

/-- **C5**: for every filepath that parses into a Resource, `retrieve`
issues exactly one GET request, at the configured gateway's origin with
path `/ipfs/{contentId}{pathname}` and the mandatory `?format=car` query. -/
theorem claim5_retrieve_url {CidT : Type} (cidParse : List Char → Option CidT)
    (cidToStr : CidT → List Char) (gatewayUrl : Url) (filepath : List Char)
    (useMF : Bool) (fetchFn : Url → FetchResponse)
    (carExport : Except (List Char) (List (List Nat))) (r : Resource CidT)
    (h : parseIpfsPath cidParse filepath = .ok r) :
    (retrieve cidParse cidToStr gatewayUrl filepath useMF fetchFn carExport).2 =
      [⟨gatewayUrl.origin,
        "/ipfs/".data ++ (cidToStr r.cid ++ r.pathname) ++ "?format=car".data⟩] := by
  simp only [retrieve, h]
  split
  · cases carExport <;> rfl
  · rfl

/-- Witness for C5 at a concrete parse. -/
theorem claim5_retrieve_url_witness :
    (retrieve demoCidParse (fun s => s) ⟨"https://storacha.link".data, "/".data⟩
        "bafybeitest/a.txt".data false (fun _ => ⟨200, "OK".data, none⟩)
        (.ok [[1]])).2 =
      [⟨"https://storacha.link".data,
        "/ipfs/".data ++ ("bafybeitest".data ++ "/a.txt".data) ++ "?format=car".data⟩] :=
  claim5_retrieve_url demoCidParse (fun s => s) ⟨"https://storacha.link".data, "/".data⟩
    "bafybeitest/a.txt".data false (fun _ => ⟨200, "OK".data, none⟩) (.ok [[1]])
    ⟨"ipfs:".data, "bafybeitest".data, "/a.txt".data⟩ (by rfl)

/-- Substring containment: `pat` occurs contiguously in the string. -/
def containsSub (pat : List Char) : List Char → Bool
  | [] => pat.isEmpty
  | a :: t => pat.isPrefixOf (a :: t) || containsSub pat t

/-- **C6**: a non-2xx gateway response makes `retrieve` fail with an HTTP
error message built from the numeric status and the status text; in
particular a 404 "Not Found" response yields a message containing both
"404" and "Not Found". -/
theorem claim6_http_error {CidT : Type} (cidParse : List Char → Option CidT)
    (cidToStr : CidT → List Char) (gatewayUrl : Url) (filepath : List Char)
    (useMF : Bool) (fetchFn : Url → FetchResponse)
    (carExport : Except (List Char) (List (List Nat))) (r : Resource CidT)
    (h : parseIpfsPath cidParse filepath = .ok r)
    (hbad : ¬ responseOk (fetchFn (retrieveUrl cidToStr gatewayUrl r))) :
    (retrieve cidParse cidToStr gatewayUrl filepath useMF fetchFn carExport).1 =
        .error (.fetchError ("Error fetching file: ".data ++
          (Nat.repr (fetchFn (retrieveUrl cidToStr gatewayUrl r)).status).data ++
          [' '] ++ (fetchFn (retrieveUrl cidToStr gatewayUrl r)).statusText)) ∧
      ((fetchFn (retrieveUrl cidToStr gatewayUrl r)).status = 404 →
        (fetchFn (retrieveUrl cidToStr gatewayUrl r)).statusText = "Not Found".data →
        (containsSub "404".data ("Error fetching file: ".data ++
            (Nat.repr (fetchFn (retrieveUrl cidToStr gatewayUrl r)).status).data ++
            [' '] ++ (fetchFn (retrieveUrl cidToStr gatewayUrl r)).statusText) = true ∧
          containsSub "Not Found".data ("Error fetching file: ".data ++
            (Nat.repr (fetchFn (retrieveUrl cidToStr gatewayUrl r)).status).data ++
            [' '] ++ (fetchFn (retrieveUrl cidToStr gatewayUrl r)).statusText) = true)) := by
  constructor
  · simp only [retrieve, h]
    rw [if_neg hbad]
  · intro h404 htext
    rw [h404, htext]
    constructor
    · decide
    · decide

/-- Witness for C6: a constant 404 "Not Found" gateway. -/
theorem claim6_http_error_witness :
    (containsSub "404".data ("Error fetching file: ".data ++
        (Nat.repr 404).data ++ [' '] ++ "Not Found".data) = true ∧
      containsSub "Not Found".data ("Error fetching file: ".data ++
        (Nat.repr 404).data ++ [' '] ++ "Not Found".data) = true) := by
  have h := claim6_http_error demoCidParse (fun s => s)
    ⟨"https://storacha.link".data, "/".data⟩ "bafybeitest/a.txt".data false
    (fun _ => ⟨404, "Not Found".data, none⟩) (.ok [])
    ⟨"ipfs:".data, "bafybeitest".data, "/a.txt".data⟩ (by rfl) (by decide)
  exact h.2 rfl rfl

theorem mapSet_keys {CidT : Type} (m : List (List Char × CidT)) (k : List Char)
    (v : CidT) :
    (mapSet m k v).map Prod.fst =
      if k ∈ m.map Prod.fst then m.map Prod.fst else m.map Prod.fst ++ [k] := by
  induction m with
  | nil => simp [mapSet]
  | cons p rest ih =>
      obtain ⟨k', v'⟩ := p
      by_cases hk : k' = k
      · subst hk
        have h0 : mapSet ((k', v') :: rest) k' v = (k', v) :: rest := by
          show (if k' = k' then (k', v) :: rest else (k', v') :: mapSet rest k' v) = _
          rw [if_pos rfl]
        rw [h0]
        have hm : k' ∈ ((k', v') :: rest).map Prod.fst := by
          rw [List.map_cons]
          exact List.mem_cons_self _ _
        rw [if_pos hm]
        rw [List.map_cons, List.map_cons]
      · simp only [mapSet, if_neg hk, List.map_cons, ih]
        by_cases hmem : k ∈ rest.map Prod.fst
        · simp [hmem, Ne.symm hk]
        · simp [hmem, Ne.symm hk]

theorem mapSet_nodup {CidT : Type} (m : List (List Char × CidT)) (k : List Char)
    (v : CidT) (h : (m.map Prod.fst).Nodup) :
    ((mapSet m k v).map Prod.fst).Nodup := by
  rw [mapSet_keys]
  split
  · exact h
  case isFalse hmem =>
    rw [List.nodup_append]
    refine ⟨h, List.nodup_singleton _, ?_⟩
    intro a ha hb
    have hab : a = k := by simpa using hb
    subst hab
    exact hmem ha

theorem mapSet_mem_pair {CidT : Type} (m : List (List Char × CidT)) (k : List Char)
    (v : CidT) (n : List Char) (w : CidT) (h : (n, w) ∈ mapSet m k v) :
    (n, w) ∈ m ∨ (n = k ∧ w = v) := by
  induction m with
  | nil =>
      have h0 : mapSet ([] : List (List Char × CidT)) k v = [(k, v)] := rfl
      rw [h0] at h
      have h' : (n, w) = (k, v) := List.mem_singleton.mp h
      exact Or.inr ⟨congrArg Prod.fst h', congrArg Prod.snd h'⟩
  | cons p rest ih =>
      obtain ⟨k', v'⟩ := p
      have h0 : mapSet ((k', v') :: rest) k v =
          if k' = k then (k', v) :: rest else (k', v') :: mapSet rest k v := rfl
      rw [h0] at h
      by_cases hk : k' = k
      · rw [if_pos hk] at h
        rcases List.mem_cons.mp h with h' | h'
        · exact Or.inr ⟨(congrArg Prod.fst h').trans hk, congrArg Prod.snd h'⟩
        · exact Or.inl (List.mem_cons.mpr (Or.inr h'))
      · rw [if_neg hk] at h
        rcases List.mem_cons.mp h with h' | h'
        · exact Or.inl (List.mem_cons.mpr (Or.inl h'))
        · rcases ih h' with h2 | h2
          · exact Or.inl (List.mem_cons.mpr (Or.inr h2))
          · exact Or.inr h2

theorem foldEntries_keys_mem {CidT : Type} (entries : List (DirectoryEntryLink CidT)) :
    ∀ (acc : List (List Char × CidT)) (n : List Char),
      n ∈ (entries.foldl entryFold acc).map Prod.fst ↔
        (n ∈ acc.map Prod.fst ∨ ∃ e ∈ entries, e.name = n ∧ n ≠ []) := by
  induction entries with
  | nil =>
      intro acc n
      rw [List.foldl_nil]
      constructor
      · exact Or.inl
      · rintro (h | ⟨e, he, _⟩)
        · exact h
        · exact absurd he (List.not_mem_nil e)
  | cons e es ih =>
      intro acc n
      rw [List.foldl_cons, ih]
      have hstep : n ∈ (entryFold acc e).map Prod.fst ↔
          (n ∈ acc.map Prod.fst ∨ (e.name = n ∧ n ≠ [])) := by
        unfold entryFold
        split
        case isTrue hne =>
          rw [mapSet_keys]
          split
          case isTrue hmem =>
            constructor
            · exact Or.inl
            · rintro (h | ⟨heq, hn0⟩)
              · exact h
              · rw [← heq]; exact hmem
          case isFalse hmem =>
            rw [List.mem_append, List.mem_singleton]
            constructor
            · rintro (h | h)
              · exact Or.inl h
              · exact Or.inr ⟨h.symm, h ▸ hne⟩
            · rintro (h | ⟨heq, hn0⟩)
              · exact Or.inl h
              · exact Or.inr heq.symm
        case isFalse hne =>
          rw [not_not] at hne
          constructor
          · exact Or.inl
          · rintro (h | ⟨heq, hn0⟩)
            · exact h
            · exact absurd (heq.symm.trans hne) hn0
      rw [hstep]
      constructor
      · rintro ((h | h) | ⟨e', he', hn⟩)
        · exact Or.inl h
        · exact Or.inr ⟨e, List.mem_cons_self _ _, h⟩
        · exact Or.inr ⟨e', List.mem_cons.mpr (Or.inr he'), hn⟩
      · rintro (h | ⟨e', he', hn⟩)
        · exact Or.inl (Or.inl h)
        · rcases List.mem_cons.mp he' with rfl | he2
          · exact Or.inl (Or.inr hn)
          · exact Or.inr ⟨e', he2, hn⟩

theorem foldEntries_nodup {CidT : Type} (entries : List (DirectoryEntryLink CidT)) :
    ∀ acc : List (List Char × CidT), (acc.map Prod.fst).Nodup →
      ((entries.foldl entryFold acc).map Prod.fst).Nodup := by
  induction entries with
  | nil => intro acc h; simpa using h
  | cons e es ih =>
      intro acc h
      rw [List.foldl_cons]
      apply ih
      unfold entryFold
      split
      · exact mapSet_nodup _ _ _ h
      · exact h

theorem foldEntries_pairs {CidT : Type} (entries : List (DirectoryEntryLink CidT)) :
    ∀ (acc : List (List Char × CidT)) (n : List Char) (w : CidT),
      (n, w) ∈ entries.foldl entryFold acc →
        (n, w) ∈ acc ∨ ∃ e ∈ entries, e.name = n ∧ e.cid = w := by
  induction entries with
  | nil => intro acc n w h; exact Or.inl (by simpa using h)
  | cons e es ih =>
      intro acc n w h
      rw [List.foldl_cons] at h
      rcases ih _ _ _ h with h' | ⟨e', he', hn, hw⟩
      · unfold entryFold at h'
        split at h'
        case isTrue hne =>
          rcases mapSet_mem_pair _ _ _ _ _ h' with h2 | ⟨h2, h3⟩
          · exact Or.inl h2
          · exact Or.inr ⟨e, List.mem_cons_self _ _, h2.symm, h3.symm⟩
        case isFalse => exact Or.inl h'
      · exact Or.inr ⟨e', List.mem_cons.mpr (Or.inr he'), hn, hw⟩

/-- **C3**: on every successful `uploadFiles` call the files map is
populated solely from the directory-entry-link callback: its keys are
exactly the non-empty names the callback reported (no duplicates,
failed-to-link files are simply absent), every value is a CID reported for
that name, and for the two-file instance the result is exactly
`{a.txt ↦ c1, b.txt ↦ c2}` together with the single root. -/
theorem claim3_upload_files_map {CidT : Type} (cidToStr : CidT → List Char)
    (st : ClientState) (files : List UploadFile) (opts : UploadOptions)
    (root : CidT) (entries : List (DirectoryEntryLink CidT))
    (hinit : st.initialized = true) (hstore : st.storageSet = true)
    (hsig : opts.signalAborted = false)
    (hdec : ∃ bss, files.mapM (fun f => base64ToBytes f.content) = .ok bss) :
    ∃ res : UploadResult CidT,
      uploadFiles cidToStr st files opts (.ok (root, entries)) = (.ok res, 1) ∧
      res.root = root ∧
      res.files = entries.foldl entryFold [] ∧
      (res.files.map Prod.fst).Nodup ∧
      (∀ n, n ∈ res.files.map Prod.fst ↔ ∃ e ∈ entries, e.name = n ∧ n ≠ []) ∧
      (∀ n w, (n, w) ∈ res.files → ∃ e ∈ entries, e.name = n ∧ e.cid = w) ∧
      (∀ c1 c2, entries = [⟨"a.txt".data, c1⟩, ⟨"b.txt".data, c2⟩] →
        res.files = [("a.txt".data, c1), ("b.txt".data, c2)]) := by
  obtain ⟨bss, hbss⟩ := hdec
  refine ⟨⟨root, resolveUrl st.config.gatewayUrl ("/ipfs/".data ++ cidToStr root),
    entries.foldl entryFold []⟩, ?_, rfl, rfl, ?_, ?_, ?_, ?_⟩
  · unfold uploadFiles
    rw [if_neg (by simp [hinit, hstore]), if_neg (by simp [hsig]), hbss]
  · exact foldEntries_nodup entries []
      (by rw [List.map_nil]; exact List.nodup_nil)
  · intro n
    rw [foldEntries_keys_mem]
    constructor
    · rintro (h | h)
      · rw [List.map_nil] at h
        exact absurd h (List.not_mem_nil n)
      · exact h
    · exact Or.inr
  · intro n w h
    rcases foldEntries_pairs entries [] n w h with h' | h'
    · exact absurd h' (List.not_mem_nil _)
    · exact h'
  · intro c1 c2 he
    subst he
    rfl

/-- Witness for C3 at a concrete two-file upload. -/
theorem claim3_upload_files_map_witness :
    ∃ res : UploadResult Nat,
      uploadFiles (fun _ => []) ⟨⟨true, true, ⟨[], []⟩⟩, true, true⟩
          [⟨"a.txt".data, "AQID".data⟩, ⟨"b.txt".data, "AQID".data⟩]
          ⟨false, none, none⟩
          (.ok (7, [⟨"a.txt".data, 1⟩, ⟨"b.txt".data, 2⟩])) = (.ok res, 1) ∧
        res.root = 7 ∧ res.files = [("a.txt".data, 1), ("b.txt".data, 2)] := by
  obtain ⟨res, h1, h2, _, _, _, _, h7⟩ := claim3_upload_files_map (fun _ : Nat => [])
    ⟨⟨true, true, ⟨[], []⟩⟩, true, true⟩
    [⟨"a.txt".data, "AQID".data⟩, ⟨"b.txt".data, "AQID".data⟩] ⟨false, none, none⟩
    7 [⟨"a.txt".data, 1⟩, ⟨"b.txt".data, 2⟩] rfl rfl rfl ⟨[[1, 2, 3], [1, 2, 3]], rfl⟩
  exact ⟨res, h1, h2, h7 1 2 rfl⟩
